import Mathlib

set_option linter.unusedVariables false

/-!
Verification of the deepracer-utils track utilities
(`deepracer/tracks/track_utils.py`).

The `Track` data model is embedded over ℚ (its construction only scales
and rearranges coordinates, so it stays exact).  The `GeometryUtils`
functions are embedded over ℝ, since they involve square roots
(`np.linalg.norm`) and `atan2` (modelled by `Complex.arg`).  Division
whose divisor may be zero in the source (normalisation of a zero vector,
slope of a vertical line) is embedded as an `Option`-returning function:
`none` is the division-by-zero failure of the source.
-/

/-- One waypoint record: six coordinates
`[center_x, center_y, inner_x, inner_y, outer_x, outer_y]`,
as documented in `TrackIO`. -/
structure Waypoint where
  center_x : ℚ
  center_y : ℚ
  inner_x : ℚ
  inner_y : ℚ
  outer_x : ℚ
  outer_y : ℚ
deriving DecidableEq, Repr

/-- The `Track` object: name, raw waypoints, the three derived coordinate
sequences (scaled from meters to centimeters), and the point ring handed
to the road polygon. -/
structure Track where
  name : String
  waypoints : List Waypoint
  center_line : List (ℚ × ℚ)
  inner_border : List (ℚ × ℚ)
  outer_border : List (ℚ × ℚ)
  road_poly : List (ℚ × ℚ)
deriving DecidableEq, Repr

/-- Source `Track.__init__`: `center_line = waypoints[:, 0:2] * 100`,
`inner_border = waypoints[:, 2:4] * 100`, `outer_border = waypoints[:, 4:6] * 100`,
and `road_poly = Polygon(vstack((outer raw points, flipud(inner raw points))))`
(the polygon ring is built from the unscaled columns `2:4` and `4:6`). -/
def Track.make (name : String) (waypoints : List Waypoint) : Track :=
  { name := name
    waypoints := waypoints
    center_line := waypoints.map (fun w => (w.center_x * 100, w.center_y * 100))
    inner_border := waypoints.map (fun w => (w.inner_x * 100, w.inner_y * 100))
    outer_border := waypoints.map (fun w => (w.outer_x * 100, w.outer_y * 100))
    road_poly :=
      waypoints.map (fun w => (w.outer_x, w.outer_y))
        ++ (waypoints.map (fun w => (w.inner_x, w.inner_y))).reverse }

namespace GeometryUtils

/-- Source `vector(p1, p2) = np.subtract(p1, p2)`. -/
def vector (p1 p2 : ℝ × ℝ) : ℝ × ℝ := (p1.1 - p2.1, p1.2 - p2.2)

/-- Numpy `np.dot(v1, v2)` for 2D vectors. -/
def dot (v1 v2 : ℝ × ℝ) : ℝ := v1.1 * v2.1 + v1.2 * v2.2

/-- Numpy `np.linalg.det([v1, v2])` for 2D vectors. -/
def det (v1 v2 : ℝ × ℝ) : ℝ := v1.1 * v2.2 - v1.2 * v2.1

/-- Source `get_angle(v1, v2) = np.degrees(atan2(det([v1,v2]), dot(v1,v2)))`.
`atan2 y x` is `Complex.arg ⟨x, y⟩` (range `(-π, π]`, `atan2 0 0 = 0`),
and `np.degrees` multiplies by `180 / π`. -/
noncomputable def get_angle (v1 v2 : ℝ × ℝ) : ℝ :=
  Complex.arg (↑(dot v1 v2) + ↑(det v1 v2) * Complex.I) * (180 / Real.pi)

/-- Source `get_vector_length(v) = np.linalg.norm(v)`. -/
noncomputable def get_vector_length (v : ℝ × ℝ) : ℝ :=
  Real.sqrt (v.1 ^ 2 + v.2 ^ 2)

/-- Source `normalize_vector(v) = v / get_vector_length(v)`; division by a zero
length is the source's division-by-zero failure, embedded as `none`. -/
noncomputable def normalize_vector (v : ℝ × ℝ) : Option (ℝ × ℝ) :=
  if get_vector_length v = 0 then none
  else some (v.1 / get_vector_length v, v.2 / get_vector_length v)

/-- Numpy `np.cross` of two 3D vectors. -/
def cross3 (a b : ℝ × ℝ × ℝ) : ℝ × ℝ × ℝ :=
  (a.2.1 * b.2.2 - a.2.2 * b.2.1,
   a.2.2 * b.1 - a.1 * b.2.2,
   a.1 * b.2.1 - a.2.1 * b.1)

/-- Dot product of two 3D vectors (used to state incidence of a
homogeneous point with a homogeneous line). -/
def dot3 (a b : ℝ × ℝ × ℝ) : ℝ :=
  a.1 * b.1 + a.2.1 * b.2.1 + a.2.2 * b.2.2

/-- Source `perpendicular_vector(v) = np.cross(v, [0, 0, -1])[:2]`
(numpy pads the 2D vector `v` with a zero third component). -/
def perpendicular_vector (v : ℝ × ℝ) : ℝ × ℝ :=
  ((cross3 (v.1, v.2, 0) (0, 0, -1)).1, (cross3 (v.1, v.2, 0) (0, 0, -1)).2.1)

/-- Source `perpendicular_normalized_vector_to_straight_line(v)`:
perpendicular, then normalize. -/
noncomputable def perpendicular_normalized_vector_to_straight_line
    (v : ℝ × ℝ) : Option (ℝ × ℝ) :=
  normalize_vector (perpendicular_vector v)

/-- A 2D point in homogeneous coordinates: `np.hstack((p, 1))`. -/
def homog (p : ℝ × ℝ) : ℝ × ℝ × ℝ := (p.1, p.2, 1)

/-- Numpy `np.round` rounds half to even.  This gives the nearest integer, with
ties broken towards the even candidate. -/
noncomputable def roundHalfEven (x : ℝ) : ℤ :=
  if x - ⌊x⌋ = 1 / 2 then (if ⌊x⌋ % 2 = 0 then ⌊x⌋ else ⌊x⌋ + 1)
  else round x

/-- Numpy `np.round(x, 3)`: round to three decimal places. -/
noncomputable def round3 (x : ℝ) : ℝ :=
  (roundHalfEven (x * 1000) : ℝ) / 1000

/-- The homogeneous intersection point `np.cross(l1, l2)` computed inside
`crossing_point_for_two_lines`, where `l1`, `l2` are the homogeneous
lines through the two point pairs. -/
def crossing_homog (l1_p1 l1_p2 l2_p1 l2_p2 : ℝ × ℝ) : ℝ × ℝ × ℝ :=
  cross3 (cross3 (homog l1_p1) (homog l1_p2)) (cross3 (homog l2_p1) (homog l2_p2))

/-- Result of `crossing_point_for_two_lines`: either the
`[float('inf'), float('inf')]` sentinel for parallel lines, or a finite
intersection point. -/
inductive CrossingResult where
  | parallel
  | point (x y : ℝ)

/-- Source `crossing_point_for_two_lines`: homogeneous-coordinate line
intersection; `z == 0` yields the parallel sentinel, otherwise the
dehomogenised point rounded to three decimals. -/
noncomputable def crossing_point_for_two_lines
    (l1_p1 l1_p2 l2_p1 l2_p2 : ℝ × ℝ) : CrossingResult :=
  let r := crossing_homog l1_p1 l1_p2 l2_p1 l2_p2
  if r.2.2 = 0 then CrossingResult.parallel
  else CrossingResult.point (round3 (r.1 / r.2.2)) (round3 (r.2.1 / r.2.2))

/-- Source `get_a_and_b_for_line(p1, p2)`: slope and intercept; the division by
`p1[0] - p2[0]` fails when that difference is zero (vertical line),
embedded as `none`. -/
noncomputable def get_a_and_b_for_line (p1 p2 : ℝ × ℝ) : Option (ℝ × ℝ) :=
  if p1.1 - p2.1 = 0 then none
  else
    let a1 := (p1.2 - p2.2) / (p1.1 - p2.1)
    some (a1, p2.2 - a1 * p2.1)

/-- Source `get_a_point_on_a_line_closest_to_point(l1_p1, l1_p2, p)`: build the
unit perpendicular to the line direction (failing on a degenerate line),
move `p` by it, and intersect the two lines. -/
noncomputable def get_a_point_on_a_line_closest_to_point
    (l1_p1 l1_p2 p : ℝ × ℝ) : Option CrossingResult :=
  (perpendicular_normalized_vector_to_straight_line (vector l1_p1 l1_p2)).map
    (fun v => crossing_point_for_two_lines l1_p1 l1_p2 p (p.1 + v.1, p.2 + v.2))

/-- Source `is_point_roughly_on_the_line(lp1, lp2, p, tolerated_angle=5)`:
`a1 = get_angle(vector(lp1, lp2), vector(lp1, p))`,
`a2 = get_angle(vector(lp2, p), vector(lp2, p))`, result `a1 < 5 and a2 < 5`.
The source compares both angles against the literal `5`, not
`tolerated_angle`, and `a2` compares a vector with itself. -/
def is_point_roughly_on_the_line (lp1 lp2 p : ℝ × ℝ) (tolerated_angle : ℝ) : Prop :=
  get_angle (vector lp1 lp2) (vector lp1 p) < 5 ∧
    get_angle (vector lp2 p) (vector lp2 p) < 5

end GeometryUtils

/-- C1: The Track built from a name and waypoints `w` has
`center_line = [(w[i].center_x * 100, w[i].center_y * 100)]`,
`inner_border = [(w[i].inner_x * 100, w[i].inner_y * 100)]`,
`outer_border = [(w[i].outer_x * 100, w[i].outer_y * 100)]`, all in
waypoint order; each sequence has length `w.length`, and position `i`
of each sequence comes from waypoint `i`. -/
theorem track_make_scaled_sequences (name : String) (w : List Waypoint) :
    (Track.make name w).center_line
        = w.map (fun r => (r.center_x * 100, r.center_y * 100)) ∧
    (Track.make name w).inner_border
        = w.map (fun r => (r.inner_x * 100, r.inner_y * 100)) ∧
    (Track.make name w).outer_border
        = w.map (fun r => (r.outer_x * 100, r.outer_y * 100)) ∧
    (Track.make name w).center_line.length = w.length ∧
    (Track.make name w).inner_border.length = w.length ∧
    (Track.make name w).outer_border.length = w.length ∧
    (∀ i : ℕ, (Track.make name w).center_line[i]?
        = (w[i]?).map (fun r => (r.center_x * 100, r.center_y * 100))) ∧
    (∀ i : ℕ, (Track.make name w).inner_border[i]?
        = (w[i]?).map (fun r => (r.inner_x * 100, r.inner_y * 100))) ∧
    (∀ i : ℕ, (Track.make name w).outer_border[i]?
        = (w[i]?).map (fun r => (r.outer_x * 100, r.outer_y * 100))) := by
  refine ⟨rfl, rfl, rfl, ?_, ?_, ?_, ?_, ?_, ?_⟩ <;>
    simp [Track.make, List.getElem?_map]

/-- C6: The Track's `road_poly` ring is the outer-border waypoint
points in original order followed by the inner-border waypoint points in
reversed order, and the ring has `2 * n` points for `n` waypoints. -/
theorem track_make_road_poly (name : String) (w : List Waypoint) :
    (Track.make name w).road_poly
        = w.map (fun r => (r.outer_x, r.outer_y))
            ++ (w.map (fun r => (r.inner_x, r.inner_y))).reverse ∧
    (Track.make name w).road_poly.length = 2 * w.length := by
  refine ⟨rfl, ?_⟩
  simp [Track.make]
  ring

namespace GeometryUtils

/-- The Euclidean length vanishes exactly on the zero vector. -/
lemma get_vector_length_eq_zero_iff (v : ℝ × ℝ) :
    get_vector_length v = 0 ↔ v = 0 := by
  rw [get_vector_length, Real.sqrt_eq_zero']
  constructor
  · intro h
    have h1 : v.1 ^ 2 = 0 := by nlinarith [sq_nonneg v.1, sq_nonneg v.2]
    have h2 : v.2 ^ 2 = 0 := by nlinarith [sq_nonneg v.1, sq_nonneg v.2]
    have := pow_eq_zero_iff (n := 2) (by norm_num) |>.mp h1
    have := pow_eq_zero_iff (n := 2) (by norm_num) |>.mp h2
    ext <;> simp_all
  · intro h
    rw [h]
    norm_num

/-- The perpendicular has the same length as the original vector. -/
lemma get_vector_length_perpendicular (v : ℝ × ℝ) :
    get_vector_length (perpendicular_vector v) = get_vector_length v := by
  rw [get_vector_length, get_vector_length, perpendicular_vector, cross3]
  congr 1
  ring

end GeometryUtils

/-- Shared evaluation: the vector `(3, 4)` has length `5`. -/
lemma length_three_four : GeometryUtils.get_vector_length ((3 : ℝ), (4 : ℝ)) = 5 := by
  rw [GeometryUtils.get_vector_length]
  rw [show ((3 : ℝ) , (4 : ℝ)).1 ^ 2 + ((3 : ℝ), (4 : ℝ)).2 ^ 2 = 5 ^ 2 by norm_num]
  exact Real.sqrt_sq (by norm_num)

/-- C4 counterexample: at `v = (1, 0)` the code's
`perpendicular_vector` returns `(0, 1)`, not `(v.y, -v.x) = (0, -1)`:
the cross product with `(0, 0, -1)` rotates counterclockwise. -/
theorem perpendicular_vector_not_clockwise :
    ¬ (GeometryUtils.perpendicular_vector ((1 : ℝ), (0 : ℝ))
        = (((1 : ℝ), (0 : ℝ)).2, -((1 : ℝ), (0 : ℝ)).1)) := by
  norm_num [GeometryUtils.perpendicular_vector, GeometryUtils.cross3, Prod.ext_iff]

/-- C4 amended: for every 2D vector `v = (x, y)`,
`perpendicular_vector v` — the first two components of the 3D cross
product of `v` with `(0, 0, -1)` — equals `(-y, x)`, i.e. `v` rotated by
+90 degrees (counterclockwise). -/
theorem perpendicular_vector_rotates_ccw (v : ℝ × ℝ) :
    GeometryUtils.perpendicular_vector v = (-v.2, v.1) := by
  rw [GeometryUtils.perpendicular_vector, GeometryUtils.cross3]
  simp only [Prod.mk.injEq]
  constructor <;> ring

/-- C10: `perpendicular_vector (x, y) = (-y, x)`; it is orthogonal to
`v` and has the same length, so for non-zero `v` the
`perpendicular_normalized_vector_to_straight_line` succeeds and yields a
unit vector orthogonal to `v`. -/
theorem perpendicular_vector_exact (v : ℝ × ℝ) :
    GeometryUtils.perpendicular_vector v = (-v.2, v.1) ∧
    GeometryUtils.dot v (GeometryUtils.perpendicular_vector v) = 0 ∧
    GeometryUtils.get_vector_length (GeometryUtils.perpendicular_vector v)
        = GeometryUtils.get_vector_length v ∧
    (v ≠ 0 → ∃ u : ℝ × ℝ,
      GeometryUtils.perpendicular_normalized_vector_to_straight_line v = some u ∧
      GeometryUtils.get_vector_length u = 1 ∧
      GeometryUtils.dot v u = 0) := by
  refine ⟨?_, ?_, GeometryUtils.get_vector_length_perpendicular v, ?_⟩
  · rw [GeometryUtils.perpendicular_vector, GeometryUtils.cross3]
    simp only [Prod.mk.injEq]
    constructor <;> ring
  · rw [GeometryUtils.perpendicular_vector, GeometryUtils.cross3, GeometryUtils.dot]
    ring
  · intro hv
    have hlen : GeometryUtils.get_vector_length v ≠ 0 := by
      rw [Ne, GeometryUtils.get_vector_length_eq_zero_iff]
      exact hv
    have hlenp : GeometryUtils.get_vector_length (GeometryUtils.perpendicular_vector v)
        = GeometryUtils.get_vector_length v :=
      GeometryUtils.get_vector_length_perpendicular v
    have hlen_nonneg : 0 ≤ GeometryUtils.get_vector_length v :=
      Real.sqrt_nonneg _
    have hlen_pos : 0 < GeometryUtils.get_vector_length v :=
      lt_of_le_of_ne hlen_nonneg (Ne.symm hlen)
    refine ⟨((GeometryUtils.perpendicular_vector v).1 / GeometryUtils.get_vector_length v,
             (GeometryUtils.perpendicular_vector v).2 / GeometryUtils.get_vector_length v),
            ?_, ?_, ?_⟩
    · rw [GeometryUtils.perpendicular_normalized_vector_to_straight_line,
        GeometryUtils.normalize_vector, hlenp, if_neg hlen]
    · rw [GeometryUtils.get_vector_length]
      have hsq : ((GeometryUtils.perpendicular_vector v).1 / GeometryUtils.get_vector_length v) ^ 2
          + ((GeometryUtils.perpendicular_vector v).2 / GeometryUtils.get_vector_length v) ^ 2
          = ((GeometryUtils.perpendicular_vector v).1 ^ 2
              + (GeometryUtils.perpendicular_vector v).2 ^ 2)
            / GeometryUtils.get_vector_length v ^ 2 := by
        field_simp
      rw [hsq, Real.sqrt_div (by positivity) _]
      have h1 : Real.sqrt ((GeometryUtils.perpendicular_vector v).1 ^ 2
          + (GeometryUtils.perpendicular_vector v).2 ^ 2)
          = GeometryUtils.get_vector_length v := by
        rw [← GeometryUtils.get_vector_length]
        exact hlenp
      rw [h1, Real.sqrt_sq hlen_nonneg, div_self hlen]
    · rw [GeometryUtils.perpendicular_vector, GeometryUtils.cross3, GeometryUtils.dot]
      field_simp
      ring

/-- C10 witness: at the concrete non-zero vector `v = (3, 4)` the
perpendicular facts hold. -/
theorem perpendicular_vector_exact_witness :
    ((3 : ℝ), (4 : ℝ)) ≠ (0 : ℝ × ℝ) ∧
    (∃ u : ℝ × ℝ,
      GeometryUtils.perpendicular_normalized_vector_to_straight_line ((3 : ℝ), (4 : ℝ))
        = some u ∧
      GeometryUtils.get_vector_length u = 1 ∧
      GeometryUtils.dot ((3 : ℝ), (4 : ℝ)) u = 0) := by
  have hne : ((3 : ℝ), (4 : ℝ)) ≠ (0 : ℝ × ℝ) := by
    simp [Prod.ext_iff]
  exact ⟨hne, (perpendicular_vector_exact ((3 : ℝ), (4 : ℝ))).2.2.2 hne⟩

/-- C3: `normalize_vector` fails (division by zero) on the zero
vector, as does `perpendicular_normalized_vector_to_straight_line`;
on every non-zero vector it returns `v / length(v)` without error. -/
theorem normalize_vector_spec :
    GeometryUtils.normalize_vector (0, 0) = none ∧
    GeometryUtils.perpendicular_normalized_vector_to_straight_line (0, 0) = none ∧
    ∀ v : ℝ × ℝ, v ≠ 0 →
      GeometryUtils.normalize_vector v
        = some (v.1 / GeometryUtils.get_vector_length v,
                v.2 / GeometryUtils.get_vector_length v) := by
  have hz : GeometryUtils.get_vector_length ((0 : ℝ), (0 : ℝ)) = 0 := by
    rw [GeometryUtils.get_vector_length]
    norm_num
  refine ⟨?_, ?_, ?_⟩
  · rw [GeometryUtils.normalize_vector, if_pos hz]
  · have hp : GeometryUtils.perpendicular_vector ((0 : ℝ), (0 : ℝ)) = (0, 0) := by
      rw [GeometryUtils.perpendicular_vector, GeometryUtils.cross3]
      norm_num
    rw [GeometryUtils.perpendicular_normalized_vector_to_straight_line, hp,
      GeometryUtils.normalize_vector, if_pos hz]
  · intro v hv
    rw [GeometryUtils.normalize_vector,
      if_neg ((GeometryUtils.get_vector_length_eq_zero_iff v).not.mpr hv)]

/-- C3 witness: at `v = (3, 4)`: non-zero, and normalization returns
`(3/5, 4/5)`. -/
theorem normalize_vector_spec_witness :
    ((3 : ℝ), (4 : ℝ)) ≠ (0 : ℝ × ℝ) ∧
    GeometryUtils.normalize_vector ((3 : ℝ), (4 : ℝ)) = some (3 / 5, 4 / 5) := by
  have hne : ((3 : ℝ), (4 : ℝ)) ≠ (0 : ℝ × ℝ) := by
    simp [Prod.ext_iff]
  have h := normalize_vector_spec.2.2 ((3 : ℝ), (4 : ℝ)) hne
  rw [length_three_four] at h
  exact ⟨hne, h⟩

/-- C7: for `p1.x ≠ p2.x`, `get_a_and_b_for_line` returns `(a, b)`
with both input points on the line `y = a*x + b`; for `p1.x = p2.x`
(vertical line) it fails with a division-by-zero error. -/
theorem get_a_and_b_for_line_spec (p1 p2 : ℝ × ℝ) :
    (p1.1 = p2.1 → GeometryUtils.get_a_and_b_for_line p1 p2 = none) ∧
    (p1.1 ≠ p2.1 → ∃ a b : ℝ,
      GeometryUtils.get_a_and_b_for_line p1 p2 = some (a, b) ∧
      p1.2 = a * p1.1 + b ∧ p2.2 = a * p2.1 + b) := by
  constructor
  · intro h
    rw [GeometryUtils.get_a_and_b_for_line, if_pos (sub_eq_zero.mpr h)]
  · intro h
    have hne : p1.1 - p2.1 ≠ 0 := sub_ne_zero.mpr h
    refine ⟨(p1.2 - p2.2) / (p1.1 - p2.1),
            p2.2 - (p1.2 - p2.2) / (p1.1 - p2.1) * p2.1, ?_, ?_, ?_⟩
    · rw [GeometryUtils.get_a_and_b_for_line, if_neg hne]
    · field_simp
      ring
    · field_simp

/-- C7 witness: the line through `(0, 0)` and `(1, 2)` is not
vertical and both points satisfy `y = a*x + b` for the returned pair. -/
theorem get_a_and_b_for_line_spec_witness :
    (((0 : ℝ), (0 : ℝ)) : ℝ × ℝ).1 ≠ (((1 : ℝ), (2 : ℝ)) : ℝ × ℝ).1 ∧
    (∃ a b : ℝ,
      GeometryUtils.get_a_and_b_for_line ((0 : ℝ), (0 : ℝ)) ((1 : ℝ), (2 : ℝ))
        = some (a, b) ∧
      (((0 : ℝ), (0 : ℝ)) : ℝ × ℝ).2 = a * (((0 : ℝ), (0 : ℝ)) : ℝ × ℝ).1 + b ∧
      (((1 : ℝ), (2 : ℝ)) : ℝ × ℝ).2 = a * (((1 : ℝ), (2 : ℝ)) : ℝ × ℝ).1 + b) := by
  have hne : (((0 : ℝ), (0 : ℝ)) : ℝ × ℝ).1 ≠ (((1 : ℝ), (2 : ℝ)) : ℝ × ℝ).1 := by
    norm_num
  exact ⟨hne, (get_a_and_b_for_line_spec ((0 : ℝ), (0 : ℝ)) ((1 : ℝ), (2 : ℝ))).2 hne⟩

/-- The signed angle of a vector with itself is zero (the `atan2` of a
zero determinant and a non-negative dot product). -/
lemma get_angle_self (v : ℝ × ℝ) : GeometryUtils.get_angle v v = 0 := by
  have hd : GeometryUtils.det v v = 0 := by
    rw [GeometryUtils.det]
    ring
  have hdot : (0 : ℝ) ≤ GeometryUtils.dot v v := by
    have h : GeometryUtils.dot v v = v.1 ^ 2 + v.2 ^ 2 := by
      rw [GeometryUtils.dot]
      ring
    rw [h]
    positivity
  rw [GeometryUtils.get_angle, hd]
  norm_num
  left
  exact Complex.arg_ofReal_of_nonneg hdot

/-- C5: `is_point_roughly_on_the_line` is exactly
`get_angle(vector(lp1, lp2), vector(lp1, p)) < 5`: the second conjunct
compares a vector with itself, whose angle is always zero, and the
`tolerated_angle` argument never affects the result. -/
theorem is_point_roughly_on_the_line_spec (lp1 lp2 p : ℝ × ℝ) (t t' : ℝ) :
    (GeometryUtils.is_point_roughly_on_the_line lp1 lp2 p t
      ↔ GeometryUtils.get_angle (GeometryUtils.vector lp1 lp2)
          (GeometryUtils.vector lp1 p) < 5) ∧
    (GeometryUtils.is_point_roughly_on_the_line lp1 lp2 p t
      ↔ GeometryUtils.is_point_roughly_on_the_line lp1 lp2 p t') := by
  have h : ∀ s : ℝ, GeometryUtils.is_point_roughly_on_the_line lp1 lp2 p s
      ↔ GeometryUtils.get_angle (GeometryUtils.vector lp1 lp2)
          (GeometryUtils.vector lp1 p) < 5 := by
    intro s
    rw [GeometryUtils.is_point_roughly_on_the_line, get_angle_self,
      and_iff_left (by norm_num : (0 : ℝ) < 5)]
  exact ⟨h t, (h t).trans (h t').symm⟩

/-- C9: for non-zero, non-parallel vectors (determinant non-zero),
the signed angle is antisymmetric: `get_angle v1 v2 = -get_angle v2 v1`. -/
theorem get_angle_antisymm (v1 v2 : ℝ × ℝ) (h1 : v1 ≠ 0) (h2 : v2 ≠ 0)
    (hd : GeometryUtils.det v1 v2 ≠ 0) :
    GeometryUtils.get_angle v1 v2 = -GeometryUtils.get_angle v2 v1 := by
  have hdot : GeometryUtils.dot v2 v1 = GeometryUtils.dot v1 v2 := by
    rw [GeometryUtils.dot, GeometryUtils.dot]
    ring
  have hdet : GeometryUtils.det v2 v1 = -GeometryUtils.det v1 v2 := by
    rw [GeometryUtils.det, GeometryUtils.det]
    ring
  have hconj : (↑(GeometryUtils.dot v2 v1) + ↑(GeometryUtils.det v2 v1) * Complex.I)
      = starRingEnd ℂ (↑(GeometryUtils.dot v1 v2) + ↑(GeometryUtils.det v1 v2) * Complex.I) := by
    rw [hdot, hdet]
    apply Complex.ext <;> simp
  have hpi : Complex.arg (↑(GeometryUtils.dot v1 v2) + ↑(GeometryUtils.det v1 v2) * Complex.I)
      ≠ Real.pi := by
    intro h
    have him := (Complex.arg_eq_pi_iff.mp h).2
    simp at him
    exact hd him
  rw [GeometryUtils.get_angle, GeometryUtils.get_angle, hconj, Complex.arg_conj,
    if_neg hpi]
  ring

/-- C9 witness: at `v1 = (1, 0)`, `v2 = (0, 1)`: both non-zero,
determinant non-zero, and the angles are opposite. -/
theorem get_angle_antisymm_witness :
    ((1 : ℝ), (0 : ℝ)) ≠ (0 : ℝ × ℝ) ∧ ((0 : ℝ), (1 : ℝ)) ≠ (0 : ℝ × ℝ) ∧
    GeometryUtils.det ((1 : ℝ), (0 : ℝ)) ((0 : ℝ), (1 : ℝ)) ≠ 0 ∧
    GeometryUtils.get_angle ((1 : ℝ), (0 : ℝ)) ((0 : ℝ), (1 : ℝ))
      = -GeometryUtils.get_angle ((0 : ℝ), (1 : ℝ)) ((1 : ℝ), (0 : ℝ)) := by
  have ha : ((1 : ℝ), (0 : ℝ)) ≠ (0 : ℝ × ℝ) := by
    simp [Prod.ext_iff]
  have hb : ((0 : ℝ), (1 : ℝ)) ≠ (0 : ℝ × ℝ) := by
    simp [Prod.ext_iff]
  have hd : GeometryUtils.det ((1 : ℝ), (0 : ℝ)) ((0 : ℝ), (1 : ℝ)) ≠ 0 := by
    norm_num [GeometryUtils.det]
  exact ⟨ha, hb, hd, get_angle_antisymm _ _ ha hb hd⟩

/-- Rounding an integer (as a real) is the identity. -/
lemma roundHalfEven_intCast (n : ℤ) : GeometryUtils.roundHalfEven (n : ℝ) = n := by
  rw [GeometryUtils.roundHalfEven, Int.floor_intCast]
  norm_num

/-- Three-decimal rounding of an integer (as a real) is the identity. -/
lemma round3_intCast (n : ℤ) : GeometryUtils.round3 (n : ℝ) = n := by
  have h : ((n : ℝ) * 1000) = ((n * 1000 : ℤ) : ℝ) := by
    push_cast
    ring
  rw [GeometryUtils.round3, h, roundHalfEven_intCast]
  push_cast
  ring

lemma round3_zero : GeometryUtils.round3 (0 : ℝ) = 0 := by
  simpa using round3_intCast 0

lemma round3_five : GeometryUtils.round3 (5 : ℝ) = 5 := by
  simpa using round3_intCast 5

/-- The cross product of two 3D vectors is orthogonal to the first. -/
lemma triple_product_left (u v : ℝ × ℝ × ℝ) :
    u.1 * (GeometryUtils.cross3 u v).1 + u.2.1 * (GeometryUtils.cross3 u v).2.1
      + u.2.2 * (GeometryUtils.cross3 u v).2.2 = 0 := by
  rw [GeometryUtils.cross3]
  ring

/-- The cross product of two 3D vectors is orthogonal to the second. -/
lemma triple_product_right (u v : ℝ × ℝ × ℝ) :
    v.1 * (GeometryUtils.cross3 u v).1 + v.2.1 * (GeometryUtils.cross3 u v).2.1
      + v.2.2 * (GeometryUtils.cross3 u v).2.2 = 0 := by
  rw [GeometryUtils.cross3]
  ring

/-- C2: `crossing_point_for_two_lines` returns the parallel sentinel
exactly when the homogeneous z-component of the cross product of the two
lines is zero; otherwise it returns the dehomogenised intersection with
each coordinate rounded to three decimals; before rounding, that point is
incident (homogeneous dot product zero) with both infinite lines.  It is
a total function: the parallel case is a return value, not an error. -/
theorem crossing_point_for_two_lines_spec (a b c d : ℝ × ℝ) :
    (GeometryUtils.crossing_point_for_two_lines a b c d
        = GeometryUtils.CrossingResult.parallel
      ↔ (GeometryUtils.crossing_homog a b c d).2.2 = 0) ∧
    ((GeometryUtils.crossing_homog a b c d).2.2 ≠ 0 →
      GeometryUtils.crossing_point_for_two_lines a b c d
        = GeometryUtils.CrossingResult.point
            (GeometryUtils.round3
              ((GeometryUtils.crossing_homog a b c d).1
                / (GeometryUtils.crossing_homog a b c d).2.2))
            (GeometryUtils.round3
              ((GeometryUtils.crossing_homog a b c d).2.1
                / (GeometryUtils.crossing_homog a b c d).2.2))) ∧
    ((GeometryUtils.crossing_homog a b c d).2.2 ≠ 0 →
      GeometryUtils.dot3
          (GeometryUtils.cross3 (GeometryUtils.homog a) (GeometryUtils.homog b))
          ((GeometryUtils.crossing_homog a b c d).1
              / (GeometryUtils.crossing_homog a b c d).2.2,
           (GeometryUtils.crossing_homog a b c d).2.1
              / (GeometryUtils.crossing_homog a b c d).2.2, 1) = 0 ∧
      GeometryUtils.dot3
          (GeometryUtils.cross3 (GeometryUtils.homog c) (GeometryUtils.homog d))
          ((GeometryUtils.crossing_homog a b c d).1
              / (GeometryUtils.crossing_homog a b c d).2.2,
           (GeometryUtils.crossing_homog a b c d).2.1
              / (GeometryUtils.crossing_homog a b c d).2.2, 1) = 0) := by
  refine ⟨?_, ?_, ?_⟩
  · by_cases hz : (GeometryUtils.crossing_homog a b c d).2.2 = 0
    · rw [GeometryUtils.crossing_point_for_two_lines]
      simp [hz]
    · rw [GeometryUtils.crossing_point_for_two_lines]
      simp only [if_neg hz]
      constructor
      · intro h
        exact absurd h (by simp)
      · intro h
        exact absurd h hz
  · intro hz
    rw [GeometryUtils.crossing_point_for_two_lines]
    simp only [if_neg hz]
  · intro hz
    rw [GeometryUtils.crossing_homog] at hz
    rw [GeometryUtils.crossing_homog, GeometryUtils.dot3, GeometryUtils.dot3]
    have key1 := triple_product_left
      (GeometryUtils.cross3 (GeometryUtils.homog a) (GeometryUtils.homog b))
      (GeometryUtils.cross3 (GeometryUtils.homog c) (GeometryUtils.homog d))
    have key2 := triple_product_right
      (GeometryUtils.cross3 (GeometryUtils.homog a) (GeometryUtils.homog b))
      (GeometryUtils.cross3 (GeometryUtils.homog c) (GeometryUtils.homog d))
    constructor
    · field_simp
      linear_combination key1
    · field_simp
      linear_combination key2

/-- C2 witness: the lines through `(0,0)-(1,0)` and `(0,0)-(0,1)`
have homogeneous z-component `1 ≠ 0` and intersect at `(0, 0)`. -/
theorem crossing_point_for_two_lines_spec_witness :
    (GeometryUtils.crossing_homog ((0 : ℝ), (0 : ℝ)) (1, 0) (0, 0) (0, 1)).2.2 ≠ 0 ∧
    GeometryUtils.crossing_point_for_two_lines ((0 : ℝ), (0 : ℝ)) (1, 0) (0, 0) (0, 1)
      = GeometryUtils.CrossingResult.point 0 0 := by
  have hz : (GeometryUtils.crossing_homog ((0 : ℝ), (0 : ℝ)) (1, 0) (0, 0) (0, 1)).2.2 ≠ 0 := by
    norm_num [GeometryUtils.crossing_homog, GeometryUtils.cross3, GeometryUtils.homog]
  have h := (crossing_point_for_two_lines_spec ((0 : ℝ), (0 : ℝ)) (1, 0) (0, 0) (0, 1)).2.1 hz
  have hx : (GeometryUtils.crossing_homog ((0 : ℝ), (0 : ℝ)) (1, 0) (0, 0) (0, 1)).1 = 0 := by
    norm_num [GeometryUtils.crossing_homog, GeometryUtils.cross3, GeometryUtils.homog]
  have hy : (GeometryUtils.crossing_homog ((0 : ℝ), (0 : ℝ)) (1, 0) (0, 0) (0, 1)).2.1 = 0 := by
    norm_num [GeometryUtils.crossing_homog, GeometryUtils.cross3, GeometryUtils.homog]
  rw [hx, hy] at h
  norm_num [round3_zero] at h
  exact ⟨hz, h⟩

/-- C8: projecting `(5, 5)` onto the line through `(0, 0)` and
`(10, 0)` returns the foot of the perpendicular `(5.0, 0.0)`. -/
theorem get_a_point_on_a_line_concrete :
    GeometryUtils.get_a_point_on_a_line_closest_to_point
        ((0 : ℝ), (0 : ℝ)) (10, 0) (5, 5)
      = some (GeometryUtils.CrossingResult.point 5 0) := by
  have h1 : GeometryUtils.vector ((0 : ℝ), (0 : ℝ)) (10, 0) = ((-10 : ℝ), (0 : ℝ)) := by
    rw [GeometryUtils.vector]
    norm_num
  have h2 : GeometryUtils.perpendicular_vector ((-10 : ℝ), (0 : ℝ)) = ((0 : ℝ), (-10 : ℝ)) := by
    rw [GeometryUtils.perpendicular_vector, GeometryUtils.cross3]
    norm_num
  have h3 : GeometryUtils.get_vector_length ((0 : ℝ), (-10 : ℝ)) = 10 := by
    rw [GeometryUtils.get_vector_length]
    rw [show (((0 : ℝ), (-10 : ℝ)) : ℝ × ℝ).1 ^ 2 + (((0 : ℝ), (-10 : ℝ)) : ℝ × ℝ).2 ^ 2
        = 10 ^ 2 by norm_num]
    exact Real.sqrt_sq (by norm_num)
  have h4 : GeometryUtils.normalize_vector ((0 : ℝ), (-10 : ℝ)) = some (0, -1) := by
    rw [GeometryUtils.normalize_vector, h3]
    norm_num
  have h5 : GeometryUtils.perpendicular_normalized_vector_to_straight_line
      (GeometryUtils.vector ((0 : ℝ), (0 : ℝ)) (10, 0)) = some ((0 : ℝ), (-1 : ℝ)) := by
    rw [h1, GeometryUtils.perpendicular_normalized_vector_to_straight_line, h2, h4]
  rw [GeometryUtils.get_a_point_on_a_line_closest_to_point, h5, Option.map_some']
  have h6 : (((5 : ℝ), (5 : ℝ)) : ℝ × ℝ).1 + (((0 : ℝ), (-1 : ℝ)) : ℝ × ℝ).1 = 5 := by
    norm_num
  have h7 : (((5 : ℝ), (5 : ℝ)) : ℝ × ℝ).2 + (((0 : ℝ), (-1 : ℝ)) : ℝ × ℝ).2 = 4 := by
    norm_num
  rw [h6, h7]
  have hz : (GeometryUtils.crossing_homog ((0 : ℝ), (0 : ℝ)) (10, 0) (5, 5) (5, 4)).2.2
      = -10 := by
    norm_num [GeometryUtils.crossing_homog, GeometryUtils.cross3, GeometryUtils.homog]
  have hx : (GeometryUtils.crossing_homog ((0 : ℝ), (0 : ℝ)) (10, 0) (5, 5) (5, 4)).1
      = -50 := by
    norm_num [GeometryUtils.crossing_homog, GeometryUtils.cross3, GeometryUtils.homog]
  have hy : (GeometryUtils.crossing_homog ((0 : ℝ), (0 : ℝ)) (10, 0) (5, 5) (5, 4)).2.1
      = 0 := by
    norm_num [GeometryUtils.crossing_homog, GeometryUtils.cross3, GeometryUtils.homog]
  rw [GeometryUtils.crossing_point_for_two_lines]
  simp only [hx, hy, hz]
  rw [if_neg (by norm_num : ¬ ((-10 : ℝ) = 0))]
  norm_num [round3_five, round3_zero]
